import Mathlib

/-!
Verification of the pipe-delimited table decoder (Go package `table`).

This file gives a shallow embedding of the decoding pipeline of the
repository: the row parser (`row.go`: `parseRow`, `trim`, `row.index`,
`row.isDelim`, `row.merge`), the table structurer (`table.go`:
`parseHeader` and the body loop of `UnmarshalReader`; the historical
variant's `(*tableScanner).mergedRow` for multi-line body rows), the
schema binder (`indexFieldToColumn`) and the record decoder
(`unmarshalStruct`, `unmarshalBasicType` over the Go standard-library
conversions `strconv.ParseInt`, `strconv.ParseUint`,
`strconv.ParseBool`).

Strings are modelled as `List Char` (Go iterates over runes).  Input is
modelled as the list of lines produced by the external line source
(`bufio.Scanner`, which strips the line terminator).  Fallible Go
functions returning `(T, error)` are modelled with `Except`/`Option`,
carrying the information content of the error they produce.
-/

namespace Table

/-- A cell of a table row: the decoded text of one column. -/
abbrev Cell := List Char

/-- A row of the table (Go `row []string`).  The Go `nil` row (returned by
`parseRow` for a blank line) is modelled as `Option.none` at the points
where the source distinguishes `nil` from a non-empty slice. -/
abbrev Row := List Cell

/-- Embeds Go `unicode.IsSpace`: the Unicode `White_Space` property
(U+0009..U+000D, U+0020, U+0085, U+00A0, U+1680, U+2000..U+200A, U+2028,
U+2029, U+202F, U+205F, U+3000). -/
def goUnicodeIsSpace (c : Char) : Bool :=
  let n := c.toNat
  (0x09 ≤ n ∧ n ≤ 0x0D) ∨ n = 0x20 ∨ n = 0x85 ∨ n = 0xA0 ∨ n = 0x1680 ∨
    (0x2000 ≤ n ∧ n ≤ 0x200A) ∨ n = 0x2028 ∨ n = 0x2029 ∨ n = 0x202F ∨
    n = 0x205F ∨ n = 0x3000

/-- Embeds `isSpace` of `row.go`: every Unicode space except the newline,
which must survive trimming because it can be produced by escape
decoding. -/
def isSpace (c : Char) : Bool :=
  if c = '\n' then false else goUnicodeIsSpace c

/-- Embeds `trim` of `row.go` (`strings.TrimFunc(s, isSpace)`): drop
leading and trailing characters satisfying `isSpace`. -/
def trim (s : List Char) : List Char :=
  List.rdropWhile isSpace (s.dropWhile isSpace)

/-- Loop of `parseRow` (`row.go`): runs over the characters of the
(already trimmed) line with the accumulated cells `acc`, the current
cell buffer `b` (Go `strings.Builder`) and the `escaping` flag.  The
only error is "unsupported escape character"; it carries the offending
character. -/
def parseRowAux : List Char → Row → List Char → Bool → Except Char (Row × Bool)
  | [], acc, b, esc => .ok (acc ++ [trim b], esc)
  | c :: rest, acc, b, esc =>
    if c = '\\' then
      if esc then parseRowAux rest acc (b ++ ['\\']) false
      else parseRowAux rest acc b true
    else if c = 'n' then
      if esc then parseRowAux rest acc (b ++ ['\n']) false
      else parseRowAux rest acc (b ++ ['n']) false
    else if c = '|' then
      if esc then parseRowAux rest acc (b ++ ['|']) false
      else parseRowAux rest (acc ++ [trim b]) [] esc
    else
      if esc then .error c
      else parseRowAux rest acc (b ++ [c]) false

/-- Embeds `parseRow` of `row.go`.  Returns the parsed row (`none` when
the line is empty or all spaces, matching the Go `nil` row) and the
continuation flag (the line ended in a pending escape, i.e. a single
unescaped trailing backslash). -/
def parseRow (s : List Char) : Except Char (Option Row × Bool) :=
  let t := trim s
  if t = [] then .ok (none, false)
  else
    match parseRowAux t [] [] false with
    | .error c => .error c
    | .ok (r, cont) => .ok (some r, cont)

/-- Loop of `row.index` with the running position counter. -/
def rowIndexAux : Row → Cell → Nat → Int
  | [], _, _ => -1
  | e :: rest, v, i => if e = v then (i : Int) else rowIndexAux rest v (i + 1)

/-- Embeds `row.index` of `row.go`: index of the first cell equal to `v`,
`-1` if not found. -/
def rowIndex (r : Row) (v : Cell) : Int :=
  rowIndexAux r v 0

/-- Embeds `row.isDelim` of `row.go`: every cell, after trimming,
consists only of `-` characters (an all-empty row qualifies). -/
def isDelim (r : Row) : Bool :=
  r.all fun e => (trim e).all fun c => c = '-'

/-- Column-wise joiner used by `row.merge`: an empty existing cell takes
the new value, two non-empty cells are concatenated with a single
space. -/
def mergeCell (a b : Cell) : Cell :=
  if a = [] then b else if b ≠ [] then a ++ ' ' :: b else a

/-- Embeds `row.merge` of `row.go`: merge `o` into `r` column-wise;
`none` models the "number of columns are different" error. -/
def merge (r o : Row) : Option Row :=
  if r.length = o.length then some (List.zipWith mergeCell r o) else none

example : parseRow "a|b".data = .ok (some [['a'], ['b']], false) := by rfl
example : parseRow "  ".data = .ok (none, false) := by rfl
example : parseRow "a\\".data = .ok (some [['a']], true) := by rfl
example : parseRow "\\|\\\\n\\|".data = .ok (some [['|', '\\', 'n', '|']], false) := by
  rfl
example : parseRow "\\\\|".data = .ok (some [['\\'], []], false) := by rfl
example : parseRow "\\a".data = .error 'a' := by rfl
example : isDelim [['-'], [' ', '-', ' '], []] = true := by decide
example : merge [['a'], []] [[], ['c']] = some [['a'], ['c']] := by decide

/-- Field kinds of the destination struct handled by `unmarshalBasicType`
(`reflect.Kind` buckets of `table.go`).  Float fields exist in the
source as well; they are outside every claim under verification and are
not modelled (IEEE-754 parsing is not representable here). The
`Unmarshaler` custom-decode branch is likewise outside the claims and
not modelled: all fields here carry basic kinds. -/
inductive Kind where
  | str
  | sInt
  | uInt
  | bool
deriving DecidableEq

/-- A decoded field value (the reflected struct field after `Set*`). -/
inductive Value where
  | str (s : List Char)
  | int (i : Int)
  | uint (n : Nat)
  | bool (b : Bool)
deriving DecidableEq

/-- The Go zero value of each field kind: what a freshly allocated
struct field (`reflect.New`) holds before any `Set*`. -/
def zeroValue : Kind → Value
  | .str => .str []
  | .sInt => .int 0
  | .uInt => .uint 0
  | .bool => .bool false

/-- One struct field as seen through reflection: its `table` tag (empty
when the tag is absent) and its kind. -/
structure FieldSpec where
  tag : List Char
  kind : Kind
deriving DecidableEq

/-- A decoded record: the field values of one emitted struct, in field
order. -/
abbrev Record := List Value

/-- Errors of the decode pipeline of `table.go`, carrying the
information content of the corresponding Go error values. -/
inductive DecodeErr where
  /-- wrapping of a `parseRow` escape error in `parseHeader` -/
  | headerParse (c : Char)
  /-- the `row.merge` "number of columns are different" error during
  header merging -/
  | headerMerge
  /-- the `indexFieldToColumn` "column '%s' not found in table" error;
  carries the unresolved column name -/
  | columnNotFound (tag : List Char)
  /-- wrapping of a `parseRow` escape error in the body loop -/
  | bodyParse (c : Char)
  /-- the "number of columns: header=%v body=%v" error -/
  | columnCount (header body : Nat)
  /-- `parseBasicTypeError`: a primitive conversion failed; names the
  target kind and carries the offending cell text -/
  | conv (k : Kind) (cell : List Char)
deriving DecidableEq

/-- Digit value of one character in the digit loop of Go
`strconv.ParseUint`: `0-9`, then letters case-folded via `c | 0x20`. -/
def digitVal (c : Char) : Option Nat :=
  let n := c.toNat
  let ln := n ||| 32
  if 48 ≤ n ∧ n ≤ 57 then some (n - 48)
  else if 97 ≤ ln ∧ ln ≤ 122 then some (ln - 87)
  else none

/-- Digit-accumulation loop of Go `strconv.ParseUint` for a given base. -/
def digitsInAux (base : Nat) : List Char → Nat → Option Nat
  | [], n => some n
  | c :: rest, n =>
    match digitVal c with
    | none => none
    | some d => if d < base then digitsInAux base rest (n * base + d) else none

/-- Digit run of Go `strconv.ParseUint` with the 64-bit range check.
The empty digit string is a syntax error (it is reachable from the
callers below only for the literal `"0"`, handled before the call).
Underscore digit separators of Go `base == 0` parsing are not modelled;
no claim involves them. -/
def digitsIn (base : Nat) (s : List Char) : Option Nat :=
  if s = [] then none
  else
    match digitsInAux base s 0 with
    | none => none
    | some n => if n < 2 ^ 64 then some n else none

/-- Models Go `strconv.ParseUint(s, 0, 64)` after sign stripping: base
prefix detection (`0b`/`0B` binary, `0o`/`0O` octal, `0x`/`0X` hex, a
remaining leading `0` octal, else decimal). -/
def goParseUintBase0 (s : List Char) : Option Nat :=
  match s with
  | ['0'] => some 0
  | '0' :: c2 :: rest2 =>
    if (c2 = 'b' ∨ c2 = 'B') ∧ rest2 ≠ [] then digitsIn 2 rest2
    else if (c2 = 'o' ∨ c2 = 'O') ∧ rest2 ≠ [] then digitsIn 8 rest2
    else if (c2 = 'x' ∨ c2 = 'X') ∧ rest2 ≠ [] then digitsIn 16 rest2
    else digitsIn 8 (c2 :: rest2)
  | _ => digitsIn 10 s

/-- Magnitude and range part of Go `strconv.ParseInt(s, 0, 64)`: the
value must fit in a signed 64-bit integer. -/
def goParseIntMag (neg : Bool) (s : List Char) : Option Int :=
  match goParseUintBase0 s with
  | none => none
  | some n =>
    if neg then if n ≤ 2 ^ 63 then some (-(n : Int)) else none
    else if n < 2 ^ 63 then some (n : Int) else none

/-- Models Go `strconv.ParseInt(s, 0, 64)` as used by
`unmarshalBasicType`: optional sign, base prefix, 64-bit range. -/
def goParseInt (s : List Char) : Option Int :=
  match s with
  | [] => none
  | c :: rest =>
    if c = '+' then goParseIntMag false rest
    else if c = '-' then goParseIntMag true rest
    else goParseIntMag false s

/-- Models Go `strconv.ParseUint(s, 10, 64)` as used by
`unmarshalBasicType`: decimal digits only, no sign, no prefix. -/
def goParseUint (s : List Char) : Option Nat :=
  digitsIn 10 s

/-- The literals Go `strconv.ParseBool` maps to `true`. -/
def goBoolTrueLits : List (List Char) :=
  ["1".data, "t".data, "T".data, "true".data, "TRUE".data, "True".data]

/-- The literals Go `strconv.ParseBool` maps to `false`. -/
def goBoolFalseLits : List (List Char) :=
  ["0".data, "f".data, "F".data, "false".data, "FALSE".data, "False".data]

/-- Models Go `strconv.ParseBool` as used by `unmarshalBasicType`. -/
def goParseBool (s : List Char) : Option Bool :=
  if s ∈ goBoolTrueLits then some true
  else if s ∈ goBoolFalseLits then some false
  else none

/-- Embeds `unmarshalBasicType` of `table.go`: convert one cell to the
field's kind; a failed conversion is a `parseBasicTypeError` naming the
kind. -/
def unmarshalBasicType (k : Kind) (s : List Char) : Except DecodeErr Value :=
  match k with
  | .str => .ok (.str s)
  | .sInt =>
    match goParseInt s with
    | some i => .ok (.int i)
    | none => .error (.conv .sInt s)
  | .uInt =>
    match goParseUint s with
    | some n => .ok (.uint n)
    | none => .error (.conv .uInt s)
  | .bool =>
    match goParseBool s with
    | some b => .ok (.bool b)
    | none => .error (.conv .bool s)

/-- Embeds `indexFieldToColumn` of `table.go`: for each struct field in
order, an empty tag is skipped (its slot keeps the zero index the Go
`make([]int, n)` put there); a non-empty tag is looked up in the header
with `row.index`, and `-1` is the fatal "column not found" error. -/
def indexFieldToColumn : List FieldSpec → Row → Except DecodeErr (List Nat)
  | [], _ => .ok []
  | f :: fs, header =>
    if f.tag = [] then
      match indexFieldToColumn fs header with
      | .error e => .error e
      | .ok is => .ok (0 :: is)
    else
      let i := rowIndex header f.tag
      if i = -1 then .error (.columnNotFound f.tag)
      else
        match indexFieldToColumn fs header with
        | .error e => .error e
        | .ok is => .ok (i.toNat :: is)

/-- Field loop of `unmarshalStruct` of `table.go`: every field —
tagged or not — is decoded from `row[indices[fi]]`. -/
def unmarshalFields (r : Row) : List (FieldSpec × Nat) → Except DecodeErr Record
  | [] => .ok []
  | (f, i) :: rest =>
    match unmarshalBasicType f.kind (r.getD i []) with
    | .error e => .error e
    | .ok v =>
      match unmarshalFields r rest with
      | .error e => .error e
      | .ok vs => .ok (v :: vs)

/-- Embeds `unmarshalStruct` of `table.go`: decode one body row into one
record, field by field, using the precomputed column indices. -/
def unmarshalStruct (spec : List FieldSpec) (r : Row) (indices : List Nat) :
    Except DecodeErr Record :=
  unmarshalFields r (spec.zip indices)

/-- Loop of `parseHeader` of `table.go` over the remaining lines, with
the `enterHeader` flag and the accumulating header (`none` is the Go
`nil` header).  Returns the header and the lines left for the body
phase. -/
def parseHeaderAux : List (List Char) → Bool → Option Row →
    Except DecodeErr (Option Row × List (List Char))
  | [], _, header => .ok (header, [])
  | l :: rest, entered, header =>
    match parseRow l with
    | .error c => .error (.headerParse c)
    | .ok (none, _) =>
      if entered then .ok (header, rest) else parseHeaderAux rest entered header
    | .ok (some r, _) =>
      if isDelim r then .ok (header, rest)
      else
        match header with
        | none => parseHeaderAux rest true (some r)
        | some h =>
          match merge h r with
          | none => .error .headerMerge
          | some h2 => parseHeaderAux rest true (some h2)

/-- Embeds `parseHeader` of `table.go` starting from the full line
stream. -/
def parseHeader (lines : List (List Char)) :
    Except DecodeErr (Option Row × List (List Char)) :=
  parseHeaderAux lines false none

/-- Body loop of `UnmarshalReader` of `table.go`.  `recs` is the current
content of the destination slice (Go appends to it in place, so on an
error return everything appended so far remains).  Returns the final
destination content, the error (`none` on success) and the lines the
loop did not consume. -/
def unmarshalBody (spec : List FieldSpec) (indices : List Nat) (header : Row)
    (recs : List Record) :
    List (List Char) → List Record × Option DecodeErr × List (List Char)
  | [] => (recs, none, [])
  | l :: rest =>
    match parseRow l with
    | .error c => (recs, some (.bodyParse c), rest)
    | .ok (ro, _) =>
      let r : Row := ro.getD []
      if r.length = 0 then (recs, none, rest)
      else if r.length ≠ header.length then
        (recs, some (.columnCount header.length r.length), rest)
      else if isDelim r then unmarshalBody spec indices header recs rest
      else
        match unmarshalStruct spec r indices with
        | .error e => (recs, some e, rest)
        | .ok rec => unmarshalBody spec indices header (recs ++ [rec]) rest

/-- Embeds `UnmarshalReader` of `table.go` from the point where the
destination shape checks have passed: `spec` is the reflected field
list of the destination's struct type, `recs0` the destination slice's
initial content, `lines` the input.  Returns the final destination
content and the error. -/
def unmarshalReader (spec : List FieldSpec) (recs0 : List Record)
    (lines : List (List Char)) : List Record × Option DecodeErr :=
  match parseHeader lines with
  | .error e => (recs0, some e)
  | .ok (ho, rest) =>
    let header : Row := ho.getD []
    if header.length = 0 then (recs0, none)
    else
      match indexFieldToColumn spec header with
      | .error e => (recs0, some e)
      | .ok indices =>
        let out := unmarshalBody spec indices header recs0 rest
        (out.1, out.2.1)

/-- Errors of `(*tableScanner).mergedRow` of the later source variant
(`src/unnamed/part_012`). -/
inductive BodyErr where
  /-- wrapping of a `parseRow` escape error -/
  | parse (c : Char)
  /-- "row continues but the file ended" -/
  | contEOF
  /-- "row continues but the table ended" -/
  | contEnded
  /-- the `row.merge` column-count error, wrapped as "merging: ..." -/
  | cols
deriving DecidableEq

/-- Result of `(*tableScanner).mergedRow`: a finalized row together with
the unconsumed lines, the end-of-input return (Go `io.EOF`, whose row
the caller discards), or an error. -/
inductive MergedRes where
  | row (r : Option Row) (rest : List (List Char))
  | eof (r : Option Row)
  | err (e : BodyErr)
deriving DecidableEq

/-- Embeds the loop of `(*tableScanner).mergedRow` of
`src/unnamed/part_012`: `acc` is the merge target accumulated so far
(Go `var row row`), `cont` the pending-continuation flag.  A delimiter
line is skipped (its continuation flag still updates `cont`); a
non-delimiter line is merged into the target and, when its continuation
flag is off, finalizes the logical row. -/
def mergedRowAux : List (List Char) → Option Row → Bool → MergedRes
  | [], acc, cont => if cont then .err .contEOF else .eof acc
  | l :: rest, acc, cont =>
    match parseRow l with
    | .error c => .err (.parse c)
    | .ok (none, _) => if cont then .err .contEnded else .row acc rest
    | .ok (some r, c) =>
      if isDelim r then mergedRowAux rest acc c
      else
        match acc with
        | none => if c then mergedRowAux rest (some r) true else .row (some r) rest
        | some h =>
          match merge h r with
          | none => .err .cols
          | some h2 =>
            if c then mergedRowAux rest (some h2) true else .row (some h2) rest

/-- Embeds `(*tableScanner).mergedRow` of `src/unnamed/part_012` from a
fresh scanner position: produce the next finalized logical row. -/
def mergedRow (lines : List (List Char)) : MergedRes :=
  mergedRowAux lines none false

/-! Supporting lemmas. -/

lemma trim_dropWhile_eq (s : List Char) :
    List.dropWhile isSpace (trim s) = trim s := by
  have hpre : trim s <+: List.dropWhile isSpace s :=
    List.rdropWhile_prefix isSpace (s.dropWhile isSpace)
  obtain ⟨r, hr⟩ := hpre
  cases h : trim s with
  | nil => simp
  | cons a t =>
    rw [h] at hr
    have hlen : 0 < (List.dropWhile isSpace s).length := by
      rw [← hr]; simp
    have hget : (List.dropWhile isSpace s).get ⟨0, hlen⟩ = a := by
      simp [← hr]
    have hns := List.dropWhile_get_zero_not isSpace s hlen
    rw [hget] at hns
    rw [List.dropWhile_cons, if_neg hns]

/-- The `trim` of `row.go` is idempotent: a trimmed string trims to
itself. -/
lemma trim_trim (s : List Char) : trim (trim s) = trim s := by
  show List.rdropWhile isSpace ((trim s).dropWhile isSpace) = trim s
  rw [trim_dropWhile_eq]
  show List.rdropWhile isSpace (List.rdropWhile isSpace (s.dropWhile isSpace)) = trim s
  rw [List.rdropWhile_idempotent]
  rfl

/-- Every cell the `parseRow` loop emits is a `trim` image, hence
trim-fixed. -/
lemma parseRowAux_cells_trimmed (s : List Char) :
    ∀ acc b esc r cont, (∀ c ∈ acc, trim c = c) →
      parseRowAux s acc b esc = .ok (r, cont) → ∀ c ∈ r, trim c = c := by
  induction s with
  | nil =>
    intro acc b esc r cont hacc h c hc
    simp only [parseRowAux, Except.ok.injEq, Prod.mk.injEq] at h
    rcases h with ⟨hr, -⟩
    rw [← hr] at hc
    rcases List.mem_append.1 hc with hc | hc
    · exact hacc c hc
    · rcases List.mem_singleton.1 hc with rfl
      exact trim_trim b
  | cons x rest ih =>
    intro acc b esc r cont hacc h c hc
    by_cases hx1 : x = '\\'
    · subst hx1
      simp only [parseRowAux, if_pos rfl] at h
      by_cases he : esc
      · rw [if_pos he] at h; exact ih _ _ _ _ _ hacc h c hc
      · rw [if_neg he] at h; exact ih _ _ _ _ _ hacc h c hc
    · by_cases hx2 : x = 'n'
      · subst hx2
        simp only [parseRowAux, if_neg hx1, if_pos rfl] at h
        by_cases he : esc
        · rw [if_pos he] at h; exact ih _ _ _ _ _ hacc h c hc
        · rw [if_neg he] at h; exact ih _ _ _ _ _ hacc h c hc
      · by_cases hx3 : x = '|'
        · subst hx3
          simp only [parseRowAux, if_neg hx1, if_neg hx2, if_pos rfl] at h
          by_cases he : esc
          · rw [if_pos he] at h; exact ih _ _ _ _ _ hacc h c hc
          · rw [if_neg he] at h
            refine ih _ _ _ _ _ ?_ h c hc
            intro d hd
            rcases List.mem_append.1 hd with hd | hd
            · exact hacc d hd
            · rcases List.mem_singleton.1 hd with rfl
              exact trim_trim b
        · simp only [parseRowAux, if_neg hx1, if_neg hx2, if_neg hx3] at h
          by_cases he : esc
          · rw [if_pos he] at h; exact absurd h (by simp)
          · rw [if_neg he] at h; exact ih _ _ _ _ _ hacc h c hc

/-- The `parseRow` loop never produces an empty row: the final buffer is
always flushed as a cell. -/
lemma parseRowAux_ne_nil (s : List Char) :
    ∀ acc b esc r cont, parseRowAux s acc b esc = .ok (r, cont) → r ≠ [] := by
  induction s with
  | nil =>
    intro acc b esc r cont h
    simp only [parseRowAux, Except.ok.injEq, Prod.mk.injEq] at h
    rcases h with ⟨hr, -⟩
    rw [← hr]
    simp
  | cons x rest ih =>
    intro acc b esc r cont h
    by_cases hx1 : x = '\\'
    · subst hx1
      simp only [parseRowAux, if_pos rfl] at h
      by_cases he : esc
      · rw [if_pos he] at h; exact ih _ _ _ _ _ h
      · rw [if_neg he] at h; exact ih _ _ _ _ _ h
    · by_cases hx2 : x = 'n'
      · subst hx2
        simp only [parseRowAux, if_neg hx1, if_pos rfl] at h
        by_cases he : esc
        · rw [if_pos he] at h; exact ih _ _ _ _ _ h
        · rw [if_neg he] at h; exact ih _ _ _ _ _ h
      · by_cases hx3 : x = '|'
        · subst hx3
          simp only [parseRowAux, if_neg hx1, if_neg hx2, if_pos rfl] at h
          by_cases he : esc
          · rw [if_pos he] at h; exact ih _ _ _ _ _ h
          · rw [if_neg he] at h; exact ih _ _ _ _ _ h
        · simp only [parseRowAux, if_neg hx1, if_neg hx2, if_neg hx3] at h
          by_cases he : esc
          · rw [if_pos he] at h; exact absurd h (by simp)
          · rw [if_neg he] at h; exact ih _ _ _ _ _ h

/-- A parsed non-blank line always has at least one cell. -/
lemma parseRow_some_ne_nil {s : List Char} {r : Row} {cont : Bool}
    (h : parseRow s = .ok (some r, cont)) : r ≠ [] := by
  rw [parseRow] at h
  by_cases ht : trim s = []
  · rw [if_pos ht] at h; simp at h
  · rw [if_neg ht] at h
    cases haux : parseRowAux (trim s) [] [] false with
    | error c => rw [haux] at h; simp at h
    | ok rc =>
      obtain ⟨r0, cont0⟩ := rc
      rw [haux] at h
      simp only [Except.ok.injEq, Prod.mk.injEq, Option.some.injEq] at h
      rcases h with ⟨rfl, rfl⟩
      exact parseRowAux_ne_nil _ _ _ _ _ _ haux

/-- Every cell of a parsed row is trim-fixed. -/
lemma parseRow_cells_trimmed {s : List Char} {r : Row} {cont : Bool}
    (h : parseRow s = .ok (some r, cont)) : ∀ c ∈ r, trim c = c := by
  rw [parseRow] at h
  by_cases ht : trim s = []
  · rw [if_pos ht] at h; simp at h
  · rw [if_neg ht] at h
    cases haux : parseRowAux (trim s) [] [] false with
    | error c => rw [haux] at h; simp at h
    | ok rc =>
      obtain ⟨r0, cont0⟩ := rc
      rw [haux] at h
      simp only [Except.ok.injEq, Prod.mk.injEq, Option.some.injEq] at h
      rcases h with ⟨rfl, rfl⟩
      exact parseRowAux_cells_trimmed _ _ _ _ _ _ (by simp) haux

/-- The `row.index` loop returns `-1` exactly when the value occurs
nowhere. -/
lemma rowIndexAux_eq_neg_one (v : Cell) :
    ∀ (r : Row) (k : Nat), rowIndexAux r v k = -1 ↔ v ∉ r := by
  intro r
  induction r with
  | nil => intro k; simp [rowIndexAux]
  | cons e rest ih =>
    intro k
    by_cases he : e = v
    · simp only [rowIndexAux, if_pos he]
      constructor
      · intro h
        exfalso
        omega
      · intro h
        subst he
        exact absurd (List.mem_cons_self e rest) h
    · simp only [rowIndexAux, if_neg he, ih (k + 1), List.mem_cons]
      constructor
      · intro h hm
        rcases hm with hm | hm
        · exact he hm.symm
        · exact h hm
      · intro h hm
        exact h (Or.inr hm)

/-- A non-negative `row.index` result points at the value. -/
lemma rowIndexAux_eq_ofNat (v : Cell) :
    ∀ (r : Row) (k i : Nat), rowIndexAux r v k = (i : Int) →
      k ≤ i ∧ r.get? (i - k) = some v ∧ ∀ j < i - k, r.get? j ≠ some v := by
  intro r
  induction r with
  | nil =>
    intro k i h
    simp only [rowIndexAux] at h
    exfalso
    omega
  | cons e rest ih =>
    intro k i h
    by_cases he : e = v
    · simp only [rowIndexAux, if_pos he] at h
      have hk : k = i := by omega
      subst hk
      refine ⟨le_refl _, ?_, ?_⟩
      · simp [he]
      · intro j hj
        exfalso
        omega
    · simp only [rowIndexAux, if_neg he] at h
      obtain ⟨hk, hget, hfirst⟩ := ih (k + 1) i h
      refine ⟨by omega, ?_, ?_⟩
      · have : i - k = (i - (k + 1)) + 1 := by omega
        rw [this]
        simpa using hget
      · intro j hj
        cases j with
        | zero =>
          simp only [List.get?_cons_zero, Ne, Option.some.injEq]
          exact fun hev => he hev
        | succ j' =>
          simp only [List.get?_cons_succ]
          exact hfirst j' (by omega)

/-- A `row.index` result other than `-1` is a genuine index. -/
lemma rowIndexAux_ne_neg_one (v : Cell) :
    ∀ (r : Row) (k : Nat), rowIndexAux r v k ≠ -1 →
      ∃ i : Nat, rowIndexAux r v k = (i : Int) := by
  intro r
  induction r with
  | nil => intro k h; exact absurd rfl h
  | cons e rest ih =>
    intro k h
    by_cases he : e = v
    · exact ⟨k, by simp [rowIndexAux, he]⟩
    · simp only [rowIndexAux, if_neg he] at h ⊢
      exact ih (k + 1) h

/-- When some non-empty tag of the field list is absent from the header,
`indexFieldToColumn` fails with a `columnNotFound` error naming an
absent non-empty tag of the list. -/
lemma indexFieldToColumn_missing (header : Row) :
    ∀ spec : List FieldSpec,
      (∃ f ∈ spec, f.tag ≠ [] ∧ f.tag ∉ header) →
      ∃ t, indexFieldToColumn spec header = .error (.columnNotFound t) ∧
        t ≠ [] ∧ t ∉ header ∧ ∃ g ∈ spec, g.tag = t := by
  intro spec
  induction spec with
  | nil => rintro ⟨f, hf, -⟩; exact absurd hf (List.not_mem_nil f)
  | cons f fs ih =>
    rintro ⟨g, hg, hgt, hgm⟩
    by_cases hft : f.tag = []
    · have hgfs : g ∈ fs := by
        rcases List.mem_cons.1 hg with rfl | h
        · exact absurd hft hgt
        · exact h
      obtain ⟨t, ht, htn, htm, g', hg', hg't⟩ := ih ⟨g, hgfs, hgt, hgm⟩
      refine ⟨t, ?_, htn, htm, g', List.mem_cons_of_mem f hg', hg't⟩
      simp only [indexFieldToColumn, if_pos hft, ht]
    · by_cases hfm : f.tag ∈ header
      · have hgfs : g ∈ fs := by
          rcases List.mem_cons.1 hg with rfl | h
          · exact absurd hfm hgm
          · exact h
        obtain ⟨t, ht, htn, htm, g', hg', hg't⟩ := ih ⟨g, hgfs, hgt, hgm⟩
        have hne : rowIndex header f.tag ≠ -1 := by
          rw [Ne, rowIndex, rowIndexAux_eq_neg_one]
          simpa using hfm
        refine ⟨t, ?_, htn, htm, g', List.mem_cons_of_mem f hg', hg't⟩
        simp only [indexFieldToColumn, if_neg hft, if_neg hne, ht]
      · have hneg : rowIndex header f.tag = -1 := by
          rw [rowIndex, rowIndexAux_eq_neg_one]
          exact hfm
        refine ⟨f.tag, ?_, hft, hfm, f, List.mem_cons_self f fs, rfl⟩
        simp [indexFieldToColumn, hft, hneg]

/-- A successful `indexFieldToColumn` binds every non-empty tag to the
first header column holding that tag. -/
lemma indexFieldToColumn_ok (header : Row) :
    ∀ (spec : List FieldSpec) (idx : List Nat),
      indexFieldToColumn spec header = .ok idx →
      idx.length = spec.length ∧
        ∀ fi f, spec.get? fi = some f → f.tag ≠ [] →
          ∃ i, idx.get? fi = some i ∧ header.get? i = some f.tag ∧
            ∀ j < i, header.get? j ≠ some f.tag := by
  intro spec
  induction spec with
  | nil =>
    intro idx h
    simp only [indexFieldToColumn, Except.ok.injEq] at h
    subst h
    exact ⟨rfl, by intro fi f hf; simp at hf⟩
  | cons f fs ih =>
    intro idx h
    by_cases hft : f.tag = []
    · simp only [indexFieldToColumn, if_pos hft] at h
      cases hrec : indexFieldToColumn fs header with
      | error e => rw [hrec] at h; simp at h
      | ok is =>
        rw [hrec] at h
        simp only [Except.ok.injEq] at h
        subst h
        obtain ⟨hlen, hbind⟩ := ih is hrec
        refine ⟨by simp [hlen], ?_⟩
        intro fi g hg hgt
        cases fi with
        | zero =>
          simp only [List.get?_cons_zero, Option.some.injEq] at hg
          subst hg
          exact absurd hft hgt
        | succ fi' =>
          simp only [List.get?_cons_succ] at hg ⊢
          exact hbind fi' g hg hgt
    · simp only [indexFieldToColumn, if_neg hft] at h
      by_cases hneg : rowIndex header f.tag = -1
      · rw [if_pos hneg] at h; simp at h
      · rw [if_neg hneg] at h
        cases hrec : indexFieldToColumn fs header with
        | error e => rw [hrec] at h; simp at h
        | ok is =>
          rw [hrec] at h
          simp only [Except.ok.injEq] at h
          subst h
          obtain ⟨hlen, hbind⟩ := ih is hrec
          obtain ⟨i, hi⟩ := rowIndexAux_ne_neg_one f.tag header 0 hneg
          refine ⟨by simp [hlen], ?_⟩
          intro fi g hg hgt
          cases fi with
          | zero =>
            simp only [List.get?_cons_zero, Option.some.injEq] at hg
            subst hg
            obtain ⟨-, hget, hfirst⟩ := rowIndexAux_eq_ofNat f.tag header 0 i hi
            refine ⟨i, ?_, ?_, ?_⟩
            · simp only [List.get?_cons_zero, Option.some.injEq]
              rw [rowIndex, hi]
              rfl
            · simpa using hget
            · intro j hj
              have := hfirst j (by omega)
              simpa using this
          | succ fi' =>
            simp only [List.get?_cons_succ] at hg ⊢
            exact hbind fi' g hg hgt

/-- The header the header phase hands to the body phase is never the
empty row: `parseRow` rows are non-empty and merging preserves arity. -/
lemma parseHeaderAux_some_ne_nil :
    ∀ (lines : List (List Char)) (entered : Bool) (ho : Option Row),
      (∀ h, ho = some h → h ≠ []) →
      ∀ h2 rest, parseHeaderAux lines entered ho = .ok (some h2, rest) →
        h2 ≠ [] := by
  intro lines
  induction lines with
  | nil =>
    intro entered ho hinv h2 rest h
    simp only [parseHeaderAux, Except.ok.injEq, Prod.mk.injEq] at h
    exact hinv h2 h.1
  | cons l ls ih =>
    intro entered ho hinv h2 rest h
    cases hp : parseRow l with
    | error c => simp [parseHeaderAux, hp] at h
    | ok rc =>
      obtain ⟨ro, c⟩ := rc
      cases ro with
      | none =>
        simp only [parseHeaderAux, hp] at h
        by_cases hent : entered
        · rw [if_pos hent] at h
          simp only [Except.ok.injEq, Prod.mk.injEq] at h
          exact hinv h2 h.1
        · rw [if_neg hent] at h
          exact ih entered ho hinv h2 rest h
      | some r =>
        by_cases hd : isDelim r
        · simp only [parseHeaderAux, hp, if_pos hd, Except.ok.injEq,
            Prod.mk.injEq] at h
          exact hinv h2 h.1
        · cases ho with
          | none =>
            simp only [parseHeaderAux, hp, if_neg hd] at h
            exact ih true (some r) (by
              intro h' hh'
              cases hh'
              exact parseRow_some_ne_nil hp) h2 rest h
          | some hh =>
            cases hm : merge hh r with
            | none =>
              simp [parseHeaderAux, hp, if_neg hd, hm] at h
            | some hm2 =>
              simp only [parseHeaderAux, hp, if_neg hd, hm] at h
              refine ih true (some hm2) ?_ h2 rest h
              intro h' hh'
              cases hh'
              have hlen : hm2.length = hh.length := by
                rw [merge] at hm
                by_cases hl : hh.length = r.length
                · rw [if_pos hl] at hm
                  simp only [Option.some.injEq] at hm
                  rw [← hm, List.length_zipWith]
                  omega
                · rw [if_neg hl] at hm; simp at hm
              have hne : hh ≠ [] := hinv hh rfl
              intro hnil
              rw [hnil] at hlen
              simp only [List.length_nil] at hlen
              exact hne (List.eq_nil_of_length_eq_zero hlen.symm)

/-! Claim theorems. -/

/-- C1: the claim says a struct field with an empty `table` tag is bound
to no column, left at its zero value and never causes a decode error.
The code contradicts it: `indexFieldToColumn` leaves the untagged slot
at index `0`, and `unmarshalStruct` decodes every field from
`row[indices[fi]]`, so an untagged field is decoded from column 0 — it
receives column 0's parsed value instead of staying at its zero value,
and a column 0 cell that fails the field's conversion aborts the decode
with an error.  Evaluated here on the failing input: destination struct
`{ S string `table:"x"`; N int }`, table `"x\n-\nhello"` errors, and
table `"x\n-\n5"` sets the untagged int field to 5. -/
theorem C1_untagged_field_decoded_from_column_zero :
    unmarshalReader [⟨"x".data, .str⟩, ⟨[], .sInt⟩] []
        ["x".data, "-".data, "hello".data] =
      ([], some (.conv .sInt "hello".data)) ∧
    unmarshalReader [⟨"x".data, .str⟩, ⟨[], .sInt⟩] []
        ["x".data, "-".data, "5".data] =
      ([[.str "5".data, .int 5]], none) ∧
    Value.int 5 ≠ zeroValue Kind.sInt ∧
    indexFieldToColumn [⟨"x".data, .str⟩, ⟨[], .sInt⟩] [['x']] = .ok [0, 0] := by
  refine ⟨by rfl, by rfl, by decide, by rfl⟩

/-- C2: in the body phase of the later variant
(`(*tableScanner).mergedRow`, `src/unnamed/part_012`), a line parsed
with a pending continuation starts (or extends) a column-wise merge
target, joined cell-wise — both cells non-empty — with a single space,
until a line without the continuation flag finalizes exactly one
logical row, leaving the remaining lines unconsumed. -/
theorem C2_body_continuation_merges_lines :
    (∀ l rest r, parseRow l = .ok (some r, true) → isDelim r = false →
      mergedRowAux (l :: rest) none false = mergedRowAux rest (some r) true) ∧
    (∀ l rest h r h2, parseRow l = .ok (some r, true) → isDelim r = false →
      merge h r = some h2 →
      mergedRowAux (l :: rest) (some h) true = mergedRowAux rest (some h2) true) ∧
    (∀ l rest h r h2, parseRow l = .ok (some r, false) → isDelim r = false →
      merge h r = some h2 →
      mergedRowAux (l :: rest) (some h) true = .row (some h2) rest) ∧
    (∀ a b : Cell, a ≠ [] → b ≠ [] → mergeCell a b = a ++ ' ' :: b) := by
  refine ⟨?_, ?_, ?_, ?_⟩
  · intro l rest r hp hd
    simp [mergedRowAux, hp, hd]
  · intro l rest h r h2 hp hd hm
    simp [mergedRowAux, hp, hd, hm]
  · intro l rest h r h2 hp hd hm
    simp [mergedRowAux, hp, hd, hm]
  · intro a b ha hb
    simp [mergeCell, ha, hb]

/-- Witness for C2 at the concrete lines `"a\"` then `"b"`: the two
physical lines yield the single logical row `["a b"]` and nothing else. -/
theorem C2_body_continuation_merges_lines_witness :
    mergedRowAux ["a\\".data, "b".data] none false = .row (some [['a', ' ', 'b']]) [] ∧
    mergeCell ['a'] ['b'] = ['a', ' ', 'b'] := by
  constructor
  · rw [C2_body_continuation_merges_lines.1 "a\\".data ["b".data] [['a']]
      (by rfl) (by rfl)]
    exact C2_body_continuation_merges_lines.2.2.1 "b".data [] [['a']] [['b']]
      [['a', ' ', 'b']] (by rfl) (by rfl) (by rfl)
  · exact C2_body_continuation_merges_lines.2.2.2 ['a'] ['b'] (by simp) (by simp)

/-- C3 counterexample: the claim says a delimiter body row is always
silently skipped and never causes an error, but the body loop of
`UnmarshalReader` checks the column count before the delimiter check.
Input `"a|b\n-|-\n-\n"` has the delimiter body row `"-"` (one column
against a two-column header) and the decode fails with the column-count
error instead of skipping it. -/
theorem C3_delimiter_row_counterexample :
    parseRow "-".data = .ok (some [['-']], false) ∧
    isDelim [['-']] = true ∧
    unmarshalReader [] [] ["a|b".data, "-|-".data, "-".data] =
      ([], some (.columnCount 2 1)) := by
  refine ⟨by rfl, by rfl, by rfl⟩

/-- C3 amended: a body row all of whose trimmed cells consist only of
`-` characters is silently skipped — no record, no error — provided its
column count equals the header's; a delimiter row of mismatched arity
fails with the column-count error like any other row. -/
theorem C3_delimiter_row_skipped :
    (∀ spec idx header recs l rest r c, parseRow l = .ok (some r, c) →
      isDelim r = true → r.length = header.length →
      unmarshalBody spec idx header recs (l :: rest) =
        unmarshalBody spec idx header recs rest) ∧
    (∀ spec idx header recs l rest r c, parseRow l = .ok (some r, c) →
      isDelim r = true → r.length ≠ header.length →
      unmarshalBody spec idx header recs (l :: rest) =
        (recs, some (.columnCount header.length r.length), rest)) := by
  constructor
  · intro spec idx header recs l rest r c hp hd hlen
    have hne : r ≠ [] := parseRow_some_ne_nil hp
    have hlen0 : ¬(r.length = 0) := fun h0 =>
      hne (List.eq_nil_of_length_eq_zero h0)
    have hcc : ¬(r.length ≠ header.length) := fun hc => hc hlen
    simp only [unmarshalBody, hp, Option.getD_some, if_neg hlen0, if_neg hcc,
      if_pos hd]
  · intro spec idx header recs l rest r c hp hd hlen
    have hne : r ≠ [] := parseRow_some_ne_nil hp
    have hlen0 : ¬(r.length = 0) := fun h0 =>
      hne (List.eq_nil_of_length_eq_zero h0)
    simp only [unmarshalBody, hp, Option.getD_some, if_neg hlen0, if_pos hlen]

/-- Witness for C3 amended: header arity 1, delimiter row `"-"` is
skipped leaving the destination untouched; against a two-column header
the same row errors. -/
theorem C3_delimiter_row_skipped_witness :
    unmarshalBody [] [] [['a']] [] ["-".data] = unmarshalBody [] [] [['a']] [] [] ∧
    unmarshalBody [] [] [['a'], ['b']] [] ["-".data] =
      ([], some (.columnCount 2 1), []) := by
  constructor
  · exact C3_delimiter_row_skipped.1 [] [] [['a']] [] "-".data [] [['-']] false
      (by rfl) (by rfl) (by rfl)
  · exact C3_delimiter_row_skipped.2 [] [] [['a'], ['b']] [] "-".data [] [['-']]
      false (by rfl) (by rfl) (by decide)

/-- C7: the row lexer decodes the two-character escapes
backslash-backslash, backslash-pipe and backslash-n to exactly one
literal character appended to the current cell buffer (an escaped pipe
does not split the cell), and a backslash followed by any other
character is a parse error carrying that character. -/
theorem C7_escape_decoding :
    (∀ rest acc b, parseRowAux ('\\' :: '\\' :: rest) acc b false =
      parseRowAux rest acc (b ++ ['\\']) false) ∧
    (∀ rest acc b, parseRowAux ('\\' :: '|' :: rest) acc b false =
      parseRowAux rest acc (b ++ ['|']) false) ∧
    (∀ rest acc b, parseRowAux ('\\' :: 'n' :: rest) acc b false =
      parseRowAux rest acc (b ++ ['\n']) false) ∧
    (∀ c rest acc b, c ≠ '\\' → c ≠ '|' → c ≠ 'n' →
      parseRowAux ('\\' :: c :: rest) acc b false = .error c) ∧
    parseRow "a\\|b".data = .ok (some [['a', '|', 'b']], false) := by
  refine ⟨fun rest acc b => rfl, fun rest acc b => rfl, fun rest acc b => rfl,
    ?_, by rfl⟩
  intro c rest acc b h1 h2 h3
  show parseRowAux (c :: rest) acc b true = .error c
  simp [parseRowAux, h1, h2, h3]

/-- Witness for C7 at the character `'r'` (from the repository's own
error test) and at concrete buffers. -/
theorem C7_escape_decoding_witness :
    parseRowAux ('\\' :: 'r' :: []) [] [] false = .error 'r' ∧
    parseRowAux ('\\' :: '\\' :: []) [] ['a'] false =
      parseRowAux [] [] (['a'] ++ ['\\']) false := by
  exact ⟨C7_escape_decoding.2.2.2.1 'r' [] [] [] (by decide) (by decide)
    (by decide), C7_escape_decoding.1 [] [] ['a']⟩

/-- C8 counterexample: the claim says boolean conversion accepts exactly
the eight literals `true false 1 0 t f T F`, but `strconv.ParseBool`
also accepts `TRUE True FALSE False`: the cell `"True"` is not among
the eight yet converts successfully. -/
theorem C8_bool_literals_counterexample :
    unmarshalBasicType Kind.bool "True".data = .ok (.bool true) ∧
    "True".data ∉ ["true".data, "false".data, "1".data, "0".data,
      "t".data, "f".data, "T".data, "F".data] := by
  refine ⟨by rfl, by decide⟩

/-- C8 amended: boolean conversion accepts exactly the twelve
`strconv.ParseBool` literals `1 t T true TRUE True` (true) and
`0 f F false FALSE False` (false), case-sensitive per token; any other
cell fails the row's decode with the conversion error naming the bool
kind. -/
theorem C8_bool_literals :
    ∀ s : List Char,
      (s ∈ goBoolTrueLits → unmarshalBasicType Kind.bool s = .ok (.bool true)) ∧
      (s ∈ goBoolFalseLits → unmarshalBasicType Kind.bool s = .ok (.bool false)) ∧
      (s ∉ goBoolTrueLits → s ∉ goBoolFalseLits →
        unmarshalBasicType Kind.bool s = .error (.conv Kind.bool s)) := by
  intro s
  refine ⟨?_, ?_, ?_⟩
  · intro ht
    simp [unmarshalBasicType, goParseBool, ht]
  · intro hf
    have ht : s ∉ goBoolTrueLits := by
      simp only [goBoolFalseLits, List.mem_cons, List.not_mem_nil, or_false] at hf
      rcases hf with rfl | rfl | rfl | rfl | rfl | rfl <;> decide
    simp [unmarshalBasicType, goParseBool, ht, hf]
  · intro ht hf
    simp [unmarshalBasicType, goParseBool, ht, hf]

/-- Witness for C8 amended at the cells `"T"`, `"False"` and `"yes"`. -/
theorem C8_bool_literals_witness :
    unmarshalBasicType Kind.bool "T".data = .ok (.bool true) ∧
    unmarshalBasicType Kind.bool "False".data = .ok (.bool false) ∧
    unmarshalBasicType Kind.bool "yes".data = .error (.conv Kind.bool "yes".data) := by
  exact ⟨(C8_bool_literals "T".data).1 (by decide),
    (C8_bool_literals "False".data).2.1 (by decide),
    (C8_bool_literals "yes".data).2.2 (by decide) (by decide)⟩

/-- Reference definition for C9 following the specification's words
only: trimming exactly the horizontal whitespace characters space and
tab, to be compared with the `trim` the code uses. -/
def specHorizontalTrim (s : List Char) : List Char :=
  List.rdropWhile (fun c => c = ' ' ∨ c = '\t')
    (s.dropWhile fun c => c = ' ' ∨ c = '\t')

/-- C9 counterexample: the claim says cells are trimmed of space and tab
only, but the code's `trim` removes every Unicode space except the
newline.  On the line `"a\x0B|b"` (vertical tab before the pipe) the
first cell comes out as `"a"`, while trimming space and tab only would
leave `"a\x0B"`. -/
theorem C9_trim_counterexample :
    parseRow ['a', Char.ofNat 11, '|', 'b'] = .ok (some [['a'], ['b']], false) ∧
    specHorizontalTrim ['a', Char.ofNat 11] = ['a', Char.ofNat 11] ∧
    (['a'] : Cell) ≠ ['a', Char.ofNat 11] := by
  refine ⟨by rfl, by rfl, by decide⟩

/-- C9 amended: every cell produced by row parsing is a fixed point of
the code's `trim`, which removes leading and trailing Unicode
whitespace except the newline; newline characters are never trimmed,
even at the very ends of a string. -/
theorem C9_cells_trimmed :
    (∀ s r cont, parseRow s = .ok (some r, cont) → ∀ c ∈ r, trim c = c) ∧
    (∀ s, trim ('\n' :: s ++ ['\n']) = '\n' :: s ++ ['\n']) ∧
    isSpace '\n' = false ∧
    isSpace (Char.ofNat 11) = true := by
  refine ⟨?_, ?_, by decide, by decide⟩
  · intro s r cont h
    exact parseRow_cells_trimmed h
  · intro s
    show List.rdropWhile isSpace
      (List.dropWhile isSpace (('\n' :: s) ++ ['\n'])) = ('\n' :: s) ++ ['\n']
    have hstep : List.dropWhile isSpace (('\n' :: s) ++ ['\n']) =
        ('\n' :: s) ++ ['\n'] := by
      rw [List.cons_append, List.dropWhile_cons, if_neg (by decide)]
    rw [hstep, List.rdropWhile_concat_neg isSpace ('\n' :: s) '\n' (by decide)]

/-- Witness for C9 amended: the cells of `" a\nb | c "` are trim-fixed
(the embedded and boundary newlines survive). -/
theorem C9_cells_trimmed_witness :
    trim ['a', '\n', 'b'] = ['a', '\n', 'b'] ∧
    trim ('\n' :: ['x'] ++ ['\n']) = '\n' :: ['x'] ++ ['\n'] := by
  constructor
  · exact C9_cells_trimmed.1 "a\\nb".data [['a', '\n', 'b']] false (by rfl)
      ['a', '\n', 'b'] (by simp)
  · exact C9_cells_trimmed.2.1 ['x']

/-- C4: a body line that parses to a row whose column count differs from
the header's aborts the decode with the column-count error carrying
both counts: nothing is appended for that row, the destination keeps
exactly the records appended for earlier rows, and the remaining lines
are not consumed.  The second conjunct connects the body loop to
`UnmarshalReader`: its destination content and error are returned
as-is. -/
theorem C4_column_count_mismatch_aborts :
    (∀ spec idx header recs l rest r c, parseRow l = .ok (some r, c) →
      r.length ≠ header.length →
      unmarshalBody spec idx header recs (l :: rest) =
        (recs, some (.columnCount header.length r.length), rest)) ∧
    (∀ spec recs lines h hrest idx, parseHeader lines = .ok (some h, hrest) →
      indexFieldToColumn spec h = .ok idx →
      unmarshalReader spec recs lines =
        ((unmarshalBody spec idx h recs hrest).1,
          (unmarshalBody spec idx h recs hrest).2.1)) := by
  constructor
  · intro spec idx header recs l rest r c hp hlen
    have hne : r ≠ [] := parseRow_some_ne_nil hp
    have hlen0 : ¬(r.length = 0) := fun h0 =>
      hne (List.eq_nil_of_length_eq_zero h0)
    simp only [unmarshalBody, hp, Option.getD_some, if_neg hlen0, if_pos hlen]
  · intro spec recs lines h hrest idx hph hidx
    have hne : h ≠ [] := parseHeaderAux_some_ne_nil lines false none
      (fun h' hh' => Option.noConfusion hh') h hrest hph
    have hlen0 : ¬(h.length = 0) := fun h0 =>
      hne (List.eq_nil_of_length_eq_zero h0)
    simp only [unmarshalReader, hph, Option.getD_some, if_neg hlen0, hidx]

/-- Witness for C4: a one-column row against a two-column header, with
one record already in the destination: the error carries both counts,
the earlier record remains, nothing is appended and the following line
is left unconsumed. -/
theorem C4_column_count_mismatch_aborts_witness :
    unmarshalBody [] [] [['a'], ['b']] [[Value.int 1]]
        ["x".data, "y|z".data] =
      ([[Value.int 1]], some (.columnCount 2 1), ["y|z".data]) := by
  exact C4_column_count_mismatch_aborts.1 [] [] [['a'], ['b']] [[Value.int 1]]
    "x".data ["y|z".data] [['x']] false (by rfl) (by decide)

/-- C5: `row.index` finds the first header column equal to a value (`-1`
exactly for absent values); a successful `indexFieldToColumn` binds
each field with a non-empty tag to the first matching column; and when
some non-empty tag occurs nowhere in the header, `UnmarshalReader`
fails with the column-not-found error naming an unresolved tag of the
field list and appends no records at all. -/
theorem C5_tag_binding :
    (∀ (header : Row) (v : Cell), rowIndex header v = -1 ↔ v ∉ header) ∧
    (∀ spec header idx, indexFieldToColumn spec header = .ok idx →
      idx.length = spec.length ∧
        ∀ fi f, spec.get? fi = some f → f.tag ≠ [] →
          ∃ i, idx.get? fi = some i ∧ header.get? i = some f.tag ∧
            ∀ j < i, header.get? j ≠ some f.tag) ∧
    (∀ spec recs lines h hrest f, parseHeader lines = .ok (some h, hrest) →
      f ∈ spec → f.tag ≠ [] → f.tag ∉ h →
      ∃ t, t ≠ [] ∧ t ∉ h ∧ (∃ g ∈ spec, g.tag = t) ∧
        unmarshalReader spec recs lines = (recs, some (.columnNotFound t))) := by
  refine ⟨?_, ?_, ?_⟩
  · intro header v
    exact rowIndexAux_eq_neg_one v header 0
  · intro spec header idx h
    exact indexFieldToColumn_ok header spec idx h
  · intro spec recs lines h hrest f hph hf hft hfm
    obtain ⟨t, herr, htn, htm, g, hg, hgt⟩ :=
      indexFieldToColumn_missing h spec ⟨f, hf, hft, hfm⟩
    have hne : h ≠ [] := parseHeaderAux_some_ne_nil lines false none
      (fun h' hh' => Option.noConfusion hh') h hrest hph
    have hlen0 : ¬(h.length = 0) := fun h0 =>
      hne (List.eq_nil_of_length_eq_zero h0)
    refine ⟨t, htn, htm, ⟨g, hg, hgt⟩, ?_⟩
    simp only [unmarshalReader, hph, Option.getD_some, if_neg hlen0, herr]

/-- Witness for C5: in the header `x|y|x` the tag `"x"` binds to column
0 (the first match), and an absent tag `"z"` makes the whole decode
fail with the error naming `"z"`, appending nothing. -/
theorem C5_tag_binding_witness :
    (rowIndex [['x'], ['y'], ['x']] ['z'] = -1 ↔
      (['z'] : Cell) ∉ ([[ 'x'], ['y'], ['x']] : Row)) ∧
    (∃ i, ([0] : List Nat).get? 0 = some i ∧
      ([[ 'x'], ['y'], ['x']] : Row).get? i = some "x".data ∧
      ∀ j < i, ([[ 'x'], ['y'], ['x']] : Row).get? j ≠ some "x".data) ∧
    (∃ t, t ≠ [] ∧ t ∉ ([['x']] : Row) ∧
      (∃ g ∈ [(⟨"z".data, Kind.sInt⟩ : FieldSpec)], FieldSpec.tag g = t) ∧
      unmarshalReader [⟨"z".data, Kind.sInt⟩] []
          ["x".data, "-".data, "1".data] =
        ([], some (.columnNotFound t))) := by
  refine ⟨C5_tag_binding.1 [['x'], ['y'], ['x']] ['z'], ?_, ?_⟩
  · have h := (C5_tag_binding.2.1 [⟨"x".data, Kind.sInt⟩] [['x'], ['y'], ['x']]
      [0] (by rfl)).2 0 ⟨"x".data, Kind.sInt⟩ (by rfl) (by decide)
    exact h
  · exact C5_tag_binding.2.2 [⟨"z".data, Kind.sInt⟩] []
      ["x".data, "-".data, "1".data]
      [['x']] ["1".data] ⟨"z".data, Kind.sInt⟩ (by rfl)
      (List.mem_cons_self _ _) (by decide) (by decide)

/-- C6: the header phase skips leading blank lines; a delimiter row as
the first non-blank line ends it at once with the empty header; a
non-delimiter first row becomes the header and later rows merge into it
column-wise — an empty existing cell takes the new value, two non-empty
cells join with one space — until a blank line or a delimiter row ends
the phase; merging rows of different arity is the fatal header-merge
error. -/
theorem C6_header_phase :
    (∀ l rest c, parseRow l = .ok (none, c) →
      parseHeaderAux (l :: rest) false none = parseHeaderAux rest false none) ∧
    (∀ l rest r c, parseRow l = .ok (some r, c) → isDelim r = true →
      parseHeaderAux (l :: rest) false none = .ok (none, rest)) ∧
    (∀ l rest r c, parseRow l = .ok (some r, c) → isDelim r = false →
      parseHeaderAux (l :: rest) false none = parseHeaderAux rest true (some r)) ∧
    (∀ l rest e h r c h2, parseRow l = .ok (some r, c) → isDelim r = false →
      merge h r = some h2 →
      parseHeaderAux (l :: rest) e (some h) = parseHeaderAux rest true (some h2)) ∧
    (∀ l rest ho c, parseRow l = .ok (none, c) →
      parseHeaderAux (l :: rest) true ho = .ok (ho, rest)) ∧
    (∀ l rest e ho r c, parseRow l = .ok (some r, c) → isDelim r = true →
      parseHeaderAux (l :: rest) e ho = .ok (ho, rest)) ∧
    (∀ l rest e h r c, parseRow l = .ok (some r, c) → isDelim r = false →
      h.length ≠ r.length →
      parseHeaderAux (l :: rest) e (some h) = .error .headerMerge) ∧
    (∀ h o : Row, h.length = o.length →
      merge h o = some (List.zipWith mergeCell h o)) ∧
    (∀ b : Cell, mergeCell [] b = b) ∧
    (∀ a b : Cell, a ≠ [] → b ≠ [] → mergeCell a b = a ++ ' ' :: b) ∧
    (∀ a : Cell, mergeCell a [] = a) := by
  refine ⟨?_, ?_, ?_, ?_, ?_, ?_, ?_, ?_, ?_, ?_, ?_⟩
  · intro l rest c hp
    simp [parseHeaderAux, hp]
  · intro l rest r c hp hd
    simp [parseHeaderAux, hp, hd]
  · intro l rest r c hp hd
    simp [parseHeaderAux, hp, hd]
  · intro l rest e h r c h2 hp hd hm
    simp [parseHeaderAux, hp, hd, hm]
  · intro l rest ho c hp
    simp [parseHeaderAux, hp]
  · intro l rest e ho r c hp hd
    simp [parseHeaderAux, hp, hd]
  · intro l rest e h r c hp hd hlen
    have hm : merge h r = none := by simp [merge, hlen]
    simp [parseHeaderAux, hp, hd, hm]
  · intro h o hlen
    simp [merge, hlen]
  · intro b
    simp [mergeCell]
  · intro a b ha hb
    simp [mergeCell, ha, hb]
  · intro a
    by_cases ha : a = []
    · simp [mergeCell, ha]
    · simp [mergeCell, ha]

/-- Witness for C6 on the repository's own multi-line header shape:
a blank line is skipped, the first row `x|` becomes the header, the row
`|y` merges into it giving `x|y`, and a delimiter ends the phase; a
two-column row merged with a one-column row is the fatal error. -/
theorem C6_header_phase_witness :
    parseHeaderAux ["  ".data, "x|".data] false none =
      parseHeaderAux ["x|".data] false none ∧
    parseHeaderAux ["x|".data] false none =
      parseHeaderAux [] true (some [['x'], []]) ∧
    merge [['x'], []] [[], ['y']] = some [['x'], ['y']] ∧
    mergeCell ['a'] ['b'] = ['a', ' ', 'b'] ∧
    parseHeaderAux ["y".data] false (some [['x'], []]) = .error .headerMerge := by
  refine ⟨?_, ?_, ?_, ?_, ?_⟩
  · exact C6_header_phase.1 "  ".data ["x|".data] false (by rfl)
  · exact C6_header_phase.2.2.1 "x|".data [] [['x'], []] false (by rfl) (by rfl)
  · exact C6_header_phase.2.2.2.2.2.2.2.1 [['x'], []] [[], ['y']] (by decide)
  · exact C6_header_phase.2.2.2.2.2.2.2.2.2.1 ['a'] ['b'] (by simp) (by simp)
  · exact C6_header_phase.2.2.2.2.2.2.1 "y".data [] false [['x'], []] [['y']]
      false (by rfl) (by rfl) (by decide)

/-- Blank lines at the start of the input are invisible to the header
phase. -/
lemma parseHeaderAux_blanks (blanks : List (List Char)) :
    (∀ b ∈ blanks, trim b = []) → ∀ rest,
      parseHeaderAux (blanks ++ rest) false none =
        parseHeaderAux rest false none := by
  induction blanks with
  | nil => intro _ rest; rfl
  | cons b bs ih =>
    intro hb rest
    have hpb : parseRow b = .ok (none, false) := by
      have ht : trim b = [] := hb b (List.mem_cons_self b bs)
      simp [parseRow, ht]
    show parseHeaderAux (b :: (bs ++ rest)) false none = _
    simp only [parseHeaderAux, hpb]
    exact ih (fun x hx => hb x (List.mem_cons_of_mem b hx)) rest

/-- C10: whenever the header phase ends with zero columns — an empty
input, an input of blank lines only, or a delimiter row as the first
non-blank line — `UnmarshalReader` succeeds immediately, leaves the
destination unchanged and decodes no body line. -/
theorem C10_zero_column_header_success :
    (∀ spec recs lines hrest, parseHeader lines = .ok (none, hrest) →
      unmarshalReader spec recs lines = (recs, none)) ∧
    (∀ spec recs, unmarshalReader spec recs [] = (recs, none)) ∧
    (∀ spec recs lines, (∀ l ∈ lines, trim l = []) →
      unmarshalReader spec recs lines = (recs, none)) ∧
    (∀ spec recs blanks l rest r c, (∀ b ∈ blanks, trim b = []) →
      parseRow l = .ok (some r, c) → isDelim r = true →
      unmarshalReader spec recs (blanks ++ l :: rest) = (recs, none)) := by
  refine ⟨?_, ?_, ?_, ?_⟩
  · intro spec recs lines hrest hph
    simp [unmarshalReader, hph]
  · intro spec recs
    rfl
  · intro spec recs lines hb
    have hph : parseHeader lines = .ok (none, []) := by
      have h1 := parseHeaderAux_blanks lines hb []
      rw [List.append_nil] at h1
      exact h1
    simp [unmarshalReader, hph]
  · intro spec recs blanks l rest r c hb hp hd
    have hph : parseHeader (blanks ++ l :: rest) = .ok (none, rest) := by
      have h1 := parseHeaderAux_blanks blanks hb (l :: rest)
      rw [parseHeader, h1]
      simp [parseHeaderAux, hp, hd]
    simp [unmarshalReader, hph]

/-- Witness for C10: a destination holding one record survives both a
blank-lines-only input and an input whose first non-blank line is a
delimiter row (its body rows stay undecoded). -/
theorem C10_zero_column_header_success_witness :
    unmarshalReader [⟨"a".data, Kind.sInt⟩] [[Value.int 7]]
        ["   ".data, "".data] = ([[Value.int 7]], none) ∧
    unmarshalReader [⟨"a".data, Kind.sInt⟩] [[Value.int 7]]
        ["-|-".data, "1|2".data] = ([[Value.int 7]], none) := by
  constructor
  · exact C10_zero_column_header_success.2.2.1 [⟨"a".data, Kind.sInt⟩]
      [[Value.int 7]] ["   ".data, "".data] (by decide)
  · exact C10_zero_column_header_success.2.2.2 [⟨"a".data, Kind.sInt⟩]
      [[Value.int 7]] [] "-|-".data ["1|2".data] [['-'], ['-']] false
      (by simp) (by rfl) (by rfl)

end Table
